import Mathlib

/-!
Verification development for the decoder core of the inst-visualiser
repository (src/examples/mqtt-live-publisher.py).

The embedding follows the Python source closely:

* Fallible Python operations (struct.unpack on a short slice, list
  indexing out of range, calling len on None) are modelled with
  `Except Unit`: a raised exception is `.error ()`, since the only
  handler in the program catches KeyboardInterrupt and every other
  exception terminates the processing loop.
* Bytes are `Nat` values; multi-byte integers are assembled explicitly
  in little-endian order.
* The Python float expression `0.004690384 * value` is modelled as the
  exact rational `4690384 * value / 1000000000`.  For every 16-bit
  value the distance stays more than `1.6e-3` away from the comparison
  bound `300`, while the double-precision rounding error of the product
  is below `1e-9`, so the strict comparison `< 300` evaluates to the
  same Boolean in IEEE doubles and in exact rational arithmetic; the
  rational model is therefore observationally faithful.
-/

namespace UWB

/-- Outcome of a fallible Python expression: `.error ()` is a raised
exception, which terminates the packet-processing loop. -/
abbrev PyResult (α : Type) := Except Unit α

instance {ε α : Type} [DecidableEq ε] [DecidableEq α] :
    DecidableEq (Except ε α)
  | .error e, .error f =>
      if h : e = f then .isTrue (by rw [h])
      else .isFalse (fun hc => h (Except.error.injEq .. ▸ hc))
  | .error _, .ok _ => .isFalse (fun hc => Except.noConfusion hc)
  | .ok _, .error _ => .isFalse (fun hc => Except.noConfusion hc)
  | .ok a, .ok b =>
      if h : a = b then .isTrue (by rw [h])
      else .isFalse (fun hc => h (Except.ok.injEq .. ▸ hc))

/-- Python list subscription `xs[i]`, including the negative-index wrap;
an out-of-range access raises IndexError. -/
def pyGet {α : Type} (xs : List α) (i : Int) : PyResult α :=
  let j : Int := if i < 0 then i + xs.length else i
  if h : 0 ≤ j ∧ j < (xs.length : Int) then
    .ok (xs.get ⟨j.toNat, by omega⟩)
  else
    .error ()

/-- Python list element assignment `xs[i] = v`, including the
negative-index wrap; an out-of-range index raises IndexError. -/
def pySet {α : Type} (xs : List α) (i : Int) (v : α) : PyResult (List α) :=
  let j : Int := if i < 0 then i + xs.length else i
  if 0 ≤ j ∧ j < (xs.length : Int) then
    .ok (xs.set j.toNat v)
  else
    .error ()

/-- `struct.unpack('<H', bytes(p[idx:idx+2]))[0]`: the slice clamps, and
unpack raises struct.error unless it receives exactly two bytes. -/
def unpackHAt (p : List Nat) (idx : Nat) : PyResult Nat :=
  match p.drop idx with
  | a :: b :: _ => .ok (a + 256 * b)
  | _ => .error ()

/-- Total little-endian 16-bit read used to state expected values. -/
def u16At (p : List Nat) (idx : Nat) : Nat :=
  (p.drop idx).getD 0 0 + 256 * (p.drop idx).getD 1 0

/-- The raw-value-to-meters conversion `0.004690384 * value` of the
source, in exact rational arithmetic. -/
def distQ (v : Nat) : ℚ := 4690384 * (v : ℚ) / 1000000000

/-- Source line 270: `value > 0 and 0.004690384 * value < 300`. -/
def twr_value_ok (v : Nat) : Bool :=
  decide (0 < v) && decide (distQ v < 300)

/-- A decoded measurement `[nodeA, nodeB, distanceMeters]`. -/
abbrev Meas := Nat × Nat × ℚ

/-- Iteration order of the nested loops
`for i in range(len(xs)): for j in range(len(ys))`: all pairs
`(xs[i], ys[j])` with `i` outer and `j` inner. -/
def crossPairs (xs ys : List Nat) : List (Nat × Nat) :=
  xs.flatMap (fun a => ys.map (fun b => (a, b)))

/-- Iteration order of the nested loops
`for i in range(len(xs)): for j in range(i+1, len(xs))`: the strict
upper triangle of index pairs, mapped to element pairs. -/
def upperTriPairs : List Nat → List (Nat × Nat)
  | [] => []
  | x :: rest => rest.map (fun y => (x, y)) ++ upperTriPairs rest

/-- One iteration of a value-consuming loop body of parse_final
(source lines 283 to 286 and their four copies): read a 16-bit value
at `idx`, advance `idx` by two, and append a measurement when the
value passes the validity filter.  The pairs are consumed in the order
given by the `pairs` list. -/
def scanPairs (body : List Nat) :
    List (Nat × Nat) → Nat → List Meas → PyResult (Nat × List Meas)
  | [], idx, res => .ok (idx, res)
  | (a, b) :: rest, idx, res => do
      let v ← unpackHAt body idx
      scanPairs body rest (idx + 2)
        (if twr_value_ok v then res ++ [(a, b, distQ v)] else res)

/-- The five consecutive loop nests of parse_final (source lines 281 to
317): groups 1 x 2, 1 x 3, 2 x 3, then the optional same-group
triangles for mode bit 0 and mode bit 1.  Returns the final read
offset together with the accumulated results. -/
def parse_loops (A0 A1 A2 : List Nat) (body : List Nat) (mode : Nat) :
    PyResult (Nat × List Meas) := do
  let s1 ← scanPairs body (crossPairs A0 A1) 0 []
  let s2 ← scanPairs body (crossPairs A0 A2) s1.1 s1.2
  let s3 ← scanPairs body (crossPairs A1 A2) s2.1 s2.2
  let s4 ← (if mode &&& 1 ≠ 0 then scanPairs body (upperTriPairs A0) s3.1 s3.2
            else .ok (s3.1, s3.2))
  let s5 ← (if mode &&& 2 ≠ 0 then scanPairs body (upperTriPairs A1) s4.1 s4.2
            else .ok (s4.1, s4.2))
  .ok s5

/-- parse_final (source lines 273 to 319).  On an empty payload the
source executes a bare `return`, so the caller receives None; this is
modelled as `none`.  Otherwise the three group lists are fetched by
Python subscription (IndexError when `assignments` is the empty list)
and the five loop nests run. -/
def parse_final (assignments : List (List Nat)) (final_payload : List Nat)
    (mode : Nat) : PyResult (Option (List Meas)) :=
  if final_payload.length = 0 then .ok none
  else do
    let A0 ← pyGet assignments 0
    let A1 ← pyGet assignments 1
    let A2 ← pyGet assignments 2
    let s ← parse_loops A0 A1 A2 final_payload mode
    .ok (some s.2)

/-- Read `n` consecutive 16-bit little-endian values starting at `idx`,
as done by the group1 and group2 loops of the assignment branch
(source lines 461 to 468).  Returns the values and the final offset. -/
def readU16List (payload : List Nat) : Nat → Nat → PyResult (List Nat × Nat)
  | idx, 0 => .ok ([], idx)
  | idx, n + 1 => do
      let v ← unpackHAt payload idx
      let s ← readU16List payload (idx + 2) n
      .ok (v :: s.1, s.2)

/-- The group3 read loop (source lines 471 to 477): like `readU16List`
but counting the entries equal to zero into the accumulator `cnt`.
Returns the values, the final count and the final offset. -/
def readGroup3 (payload : List Nat) :
    Nat → Nat → Nat → PyResult (List Nat × Nat × Nat)
  | idx, cnt, 0 => .ok ([], cnt, idx)
  | idx, cnt, n + 1 => do
      let v ← unpackHAt payload idx
      let s ← readGroup3 payload (idx + 2) (if v = 0 then cnt + 1 else cnt) n
      .ok (v :: s.1, s.2.1, s.2.2)

/-- Mutable state shared between the assignment and TOF branches of the
dispatch loop (source lines 419 to 426). -/
structure LoopState where
  assignments : List (List Nat)
  mode : Nat
  g1 : Nat
  g2 : Nat
  g3 : Nat
  unassigned_count : Nat
deriving DecidableEq

/-- The state before any packet has been processed
(source lines 419 to 426). -/
def initState : LoopState :=
  { assignments := [], mode := 0, g1 := 0, g2 := 0, g3 := 0,
    unassigned_count := 0 }

/-- The unassigned-identity patch loop of the TOF branch (source lines
499 to 504): `r` remaining iterations, `ii` the current byte offset,
`k` the current group-3 index `g3 - unassigned_count + i` (a Python
int, so possibly negative).  Each iteration reads one 16-bit NodeId
and stores it at `assignments[2][k]`. -/
def patchLoop (payload : List Nat) :
    Nat → Nat → Int → List (List Nat) → PyResult (List (List Nat))
  | 0, _, _, ass => .ok ass
  | r + 1, ii, k, ass => do
      let v ← unpackHAt payload ii
      let g3list ← pyGet ass 2
      let g3set ← pySet g3list k v
      patchLoop payload r (ii + 2) (k + 1) (ass.set 2 g3set)

/-- The assignment branch (source lines 454 to 480): parse tx power,
mode and the three group sizes from offsets 4 to 8, then read the three
groups, counting zero entries of group 3.  The entire prior table is
replaced and no measurements are produced. -/
def dispatchAssign (payload : List Nat) : PyResult (LoopState × List Meas) :=
  if payload.length < 9 then .error ()
  else do
    let mode := payload.getD 5 0
    let g1 := payload.getD 6 0
    let g2 := payload.getD 7 0
    let g3 := payload.getD 8 0
    let r1 ← readU16List payload 9 g1
    let r2 ← readU16List payload r1.2 g2
    let r3 ← readGroup3 payload r2.2 0 g3
    .ok ({ assignments := [r1.1, r2.1, r3.1], mode := mode, g1 := g1,
           g2 := g2, g3 := g3, unassigned_count := r3.2.1 }, [])

/-- The TOF branch (source lines 482 to 513): compute the expected
raw-value count from the stored group sizes and mode, run the
unassigned-identity patch loop at offset `4 + 2 * tof_count`, then
decode the body with parse_final on the patched table.  The caller
then evaluates `len(results)` inside an f-string (source line 510), so
a None result raises TypeError, modelled as `.error ()`. -/
def dispatchTof (st : LoopState) (payload : List Nat) :
    PyResult (LoopState × List Meas) := do
  let tof_count := st.g1 * st.g2 + st.g1 * st.g3 + st.g2 * st.g3
      + (if st.mode &&& 1 ≠ 0 then st.g1 * (st.g1 - 1) / 2 else 0)
      + (if st.mode &&& 2 ≠ 0 then st.g2 * (st.g2 - 1) / 2 else 0)
  let ass ← patchLoop payload st.unassigned_count (4 + 2 * tof_count)
      ((st.g3 : Int) - (st.unassigned_count : Int)) st.assignments
  let resOpt ← parse_final ass (payload.drop 4) st.mode
  match resOpt with
  | none => .error ()
  | some results => .ok ({ st with assignments := ass }, results)

/-- Processing of one complete payload by the dispatch loop (source
lines 449 to 521): the fixed header unpack `<BbH` needs four bytes,
then the branch is chosen by the type byte `payload[0]`; any type other
than 2 and 4 leaves the state untouched and produces nothing. -/
def dispatch (st : LoopState) (payload : List Nat) :
    PyResult (LoopState × List Meas) :=
  if payload.length < 4 then .error ()
  else if payload.getD 0 0 = 2 then dispatchAssign payload
  else if payload.getD 0 0 = 4 then dispatchTof st payload
  else .ok (st, [])

/-- States of the dispatch loop reachable from the initial state by
successfully processing complete payloads. -/
inductive ReachableState : LoopState → Prop
  | init : ReachableState initState
  | step {st st2 : LoopState} {p : List Nat} {ms : List Meas} :
      ReachableState st → dispatch st p = .ok (st2, ms) → ReachableState st2

/-- Little-endian encoding of one 16-bit value. -/
def encU16 (v : Nat) : List Nat := [v % 256, v / 256]

/-- Little-endian encoding of a sequence of 16-bit values. -/
def encU16List (vs : List Nat) : List Nat := vs.flatMap encU16

/-- The pairing order mandated by the specification: groups 1 x 2,
1 x 3, 2 x 3, then the in-group triangles enabled by mode bits 0
and 1. -/
def pairSeq (G1 G2 G3 : List Nat) (mode : Nat) : List (Nat × Nat) :=
  crossPairs G1 G2 ++ crossPairs G1 G3 ++ crossPairs G2 G3
  ++ (if mode &&& 1 ≠ 0 then upperTriPairs G1 else [])
  ++ (if mode &&& 2 ≠ 0 then upperTriPairs G2 else [])

/-- The raw-value count formula of the specification. -/
def pairCount (G1 G2 G3 : List Nat) (mode : Nat) : Nat :=
  G1.length * G2.length + G1.length * G3.length + G2.length * G3.length
  + (if mode &&& 1 ≠ 0 then G1.length * (G1.length - 1) / 2 else 0)
  + (if mode &&& 2 ≠ 0 then G2.length * (G2.length - 1) / 2 else 0)

/-- Expected decode result: the k-th pair of `pairs` is matched with the
16-bit value at offset `idx + 2 * k` of `body`; values passing the
validity filter become measurements, in pair order. -/
def specScan (body : List Nat) : List (Nat × Nat) → Nat → List Meas
  | [], _ => []
  | (a, b) :: rest, idx =>
      (if twr_value_ok (u16At body idx) then [(a, b, distQ (u16At body idx))]
       else [])
      ++ specScan body rest (idx + 2)

/-- State of the frame reassembler: the accumulation buffer `s`, the
bytes not yet taken from the serial stream, and the payloads emitted
so far. -/
structure FSt where
  s : List Nat
  input : List Nat
  out : List (List Nat)
deriving DecidableEq

/-- One step of the frame loop (source lines 429 to 527).  With at
least four buffered bytes: on magic `DC AC` at the front, read the
little-endian length, block until that many bytes are available (none
models blocking forever on a finite stream), emit the payload and
clear the buffer; otherwise discard exactly one leading byte.  With
fewer than four buffered bytes, append the next stream byte, one at a
time (source reads a single byte per outer iteration). -/
def fstep (st : FSt) : Option FSt :=
  if 4 ≤ st.s.length then
    if st.s.getD 0 0 = 0xDC ∧ st.s.getD 1 0 = 0xAC then
      if st.s.getD 2 0 + 256 * st.s.getD 3 0 ≤ st.input.length then
        some ⟨[], st.input.drop (st.s.getD 2 0 + 256 * st.s.getD 3 0),
          st.out ++ [st.input.take (st.s.getD 2 0 + 256 * st.s.getD 3 0)]⟩
      else none
    else some ⟨st.s.drop 1, st.input, st.out⟩
  else
    match st.input with
    | [] => none
    | b :: rest => some ⟨st.s ++ [b], rest, st.out⟩

/-- Run the frame loop to completion on a finite stream and collect the
emitted payloads. -/
def frun (st : FSt) : List (List Nat) :=
  match _h : fstep st with
  | none => st.out
  | some st2 => frun st2
termination_by 2 * st.input.length + st.s.length
decreasing_by
  unfold fstep at _h
  by_cases h4 : 4 ≤ st.s.length
  · rw [if_pos h4] at _h
    by_cases hm : st.s.getD 0 0 = 0xDC ∧ st.s.getD 1 0 = 0xAC
    · rw [if_pos hm] at _h
      by_cases hl : st.s.getD 2 0 + 256 * st.s.getD 3 0 ≤ st.input.length
      · rw [if_pos hl] at _h
        cases _h
        simp only [List.length_drop, List.length_nil]
        omega
      · rw [if_neg hl] at _h
        cases _h
    · rw [if_neg hm] at _h
      cases _h
      simp only [List.length_drop]
      omega
  · rw [if_neg h4] at _h
    cases hin : st.input with
    | nil =>
      rw [hin] at _h
      cases _h
    | cons b rest =>
      rw [hin] at _h
      cases _h
      simp only [hin, List.length_append, List.length_cons, List.length_nil]
      omega

/-- Frame-loop states reachable from a given state. -/
inductive FReach : FSt → FSt → Prop
  | refl (st : FSt) : FReach st st
  | tail {st st2 st3 : FSt} : FReach st st2 → fstep st2 = some st3 →
      FReach st st3

/-- A byte list containing no adjacent pair `DC AC`, so that the
reassembler treats every one of its bytes as garbage. -/
def noMagicPair : List Nat → Prop
  | x :: y :: rest => ¬(x = 0xDC ∧ y = 0xAC) ∧ noMagicPair (y :: rest)
  | _ => True

/-- A well-formed frame for a payload of fewer than 65536 bytes: magic,
little-endian length, payload. -/
def mkFrame (payload : List Nat) : List Nat :=
  0xDC :: 0xAC :: payload.length % 256 :: payload.length / 256 :: payload

/-- The `u` resolved NodeIds located immediately after the `pc` raw
values in a TOF body: 16-bit little-endian values at offsets
`2*pc, 2*pc + 2, ...`. -/
def resolvedIds (body : List Nat) (pc u : Nat) : List Nat :=
  (List.range u).map (fun k => u16At body (2 * pc + 2 * k))

/-- Group 3 after the TOF patch: the trailing `u` slots are replaced in
order by the resolved NodeIds. -/
def patchedG3 (G3 body : List Nat) (pc u : Nat) : List Nat :=
  G3.take (G3.length - u) ++ resolvedIds body pc u

/-! ### Basic lemmas about the value filter and byte reads -/

lemma twr_value_ok_iff (v : Nat) :
    twr_value_ok v = true ↔ (0 < v ∧ distQ v < 300) := by
  simp [twr_value_ok]

lemma twr_value_ok_eq (v : Nat) :
    twr_value_ok v =
      (decide (0 < v) && decide (4690384 * v < 300000000000)) := by
  unfold twr_value_ok distQ
  congr 1
  rw [decide_eq_decide, div_lt_iff₀ (by norm_num)]
  have h : (4690384 : ℚ) * (v : ℚ) = ((4690384 * v : ℕ) : ℚ) := by
    push_cast
    ring
  have h2 : (300 : ℚ) * 1000000000 = ((300000000000 : ℕ) : ℚ) := by norm_num
  rw [h, h2]
  exact Nat.cast_lt

lemma unpackHAt_ok (p : List Nat) (idx : Nat) (h : idx + 2 ≤ p.length) :
    unpackHAt p idx = .ok (u16At p idx) := by
  have h2 : 2 ≤ (p.drop idx).length := by
    simp only [List.length_drop]
    omega
  unfold unpackHAt u16At
  cases hd : p.drop idx with
  | nil =>
    rw [hd] at h2
    simp at h2
  | cons a tl =>
    cases tl with
    | nil =>
      rw [hd] at h2
      simp at h2
    | cons b tl2 => simp [List.getD]

lemma u16At_append (A body : List Nat) (x : Nat) :
    u16At (A ++ body) (A.length + x) = u16At body x := by
  unfold u16At
  rw [List.drop_append]

lemma unpackHAt_append (A body : List Nat) (x : Nat) :
    unpackHAt (A ++ body) (A.length + x) = unpackHAt body x := by
  unfold unpackHAt
  rw [List.drop_append]

/-- Claim C2: a raw 16-bit value consumed by the decode loop produces a
Measurement if and only if it is positive and its converted distance
`0.004690384 * v` is strictly below 300 meters, and the distance field
of the produced measurement is exactly that product; otherwise the
value is dropped and the loop continues with the state unchanged. -/
theorem C2_validity_filter (body : List Nat) (a b : Nat)
    (rest : List (Nat × Nat)) (idx : Nat) (res : List Meas)
    (h : idx + 2 ≤ body.length) :
    scanPairs body ((a, b) :: rest) idx res =
      scanPairs body rest (idx + 2)
        (if 0 < u16At body idx ∧ distQ (u16At body idx) < 300
         then res ++ [(a, b, distQ (u16At body idx))] else res) := by
  conv_lhs => rw [scanPairs.eq_def]
  dsimp only
  rw [unpackHAt_ok body idx h]
  show scanPairs body rest (idx + 2)
      (if twr_value_ok (u16At body idx) then
        res ++ [(a, b, distQ (u16At body idx))] else res) = _
  rw [if_congr (twr_value_ok_iff (u16At body idx)) rfl rfl]

/-- Witness for C2 at a concrete input. -/
theorem C2_validity_filter_witness :
    0 + 2 ≤ ([10, 0] : List Nat).length ∧
    scanPairs [10, 0] [(1, 2)] 0 [] =
      scanPairs [10, 0] [] (0 + 2)
        (if 0 < u16At [10, 0] 0 ∧ distQ (u16At [10, 0] 0) < 300
         then [] ++ [(1, 2, distQ (u16At [10, 0] 0))] else []) :=
  ⟨by decide, C2_validity_filter [10, 0] 1 2 [] 0 [] (by decide)⟩

/-! ### The decode loops consume values in the fixed pairing order -/

lemma pybind_ok {α β : Type} (a : α) (f : α → PyResult β) :
    (do let x ← (.ok a : PyResult α); f x) = f a := rfl

lemma pybind_pure {α : Type} (x : PyResult α) :
    (do let a ← x; (.ok a : PyResult α)) = x := by
  cases x <;> rfl

lemma pybind_assoc {α β γ : Type} (x : PyResult α) (f : α → PyResult β)
    (g : β → PyResult γ) :
    (do let b ← (do let a ← x; f a); g b) =
      (do let a ← x; let b ← f a; g b) := by
  cases x <;> rfl

lemma scanPairs_ok (body : List Nat) (pairs : List (Nat × Nat)) :
    ∀ (idx : Nat) (res : List Meas),
      idx + 2 * pairs.length ≤ body.length →
      scanPairs body pairs idx res =
        .ok (idx + 2 * pairs.length, res ++ specScan body pairs idx) := by
  induction pairs with
  | nil =>
    intro idx res _
    simp [scanPairs, specScan]
  | cons p rest ih =>
    intro idx res h
    obtain ⟨a, b⟩ := p
    have h2 : idx + 2 ≤ body.length := by
      simp only [List.length_cons] at h
      omega
    conv_lhs => rw [scanPairs.eq_def]
    dsimp only
    rw [unpackHAt_ok body idx h2]
    show scanPairs body rest (idx + 2)
        (if twr_value_ok (u16At body idx) then
          res ++ [(a, b, distQ (u16At body idx))] else res) = _
    rw [ih (idx + 2) _ (by simp only [List.length_cons] at h; omega)]
    show _ = Except.ok (idx + 2 * ((a, b) :: rest).length,
      res ++ ((if twr_value_ok (u16At body idx) then
          [(a, b, distQ (u16At body idx))] else []) ++
        specScan body rest (idx + 2)))
    by_cases hc : twr_value_ok (u16At body idx)
    · rw [if_pos hc, if_pos hc]
      simp only [Except.ok.injEq, Prod.mk.injEq, List.length_cons]
      exact ⟨by omega, by rw [List.append_assoc]⟩
    · rw [if_neg hc, if_neg hc]
      simp only [Except.ok.injEq, Prod.mk.injEq, List.length_cons]
      exact ⟨by omega, by rw [List.nil_append]⟩

lemma specScan_append (body : List Nat) (p q : List (Nat × Nat)) :
    ∀ idx, specScan body (p ++ q) idx =
      specScan body p idx ++ specScan body q (idx + 2 * p.length) := by
  induction p with
  | nil =>
    intro idx
    simp [specScan]
  | cons x rest ih =>
    intro idx
    obtain ⟨a, b⟩ := x
    simp only [List.cons_append]
    show (if twr_value_ok (u16At body idx) then
        [(a, b, distQ (u16At body idx))] else []) ++
        specScan body (rest ++ q) (idx + 2) = _
    rw [ih (idx + 2)]
    have harith : idx + 2 + 2 * rest.length =
        idx + 2 * (((a, b) :: rest).length) := by
      simp only [List.length_cons]
      omega
    rw [harith]
    show _ = (if twr_value_ok (u16At body idx) then
        [(a, b, distQ (u16At body idx))] else []) ++
        specScan body rest (idx + 2) ++
        specScan body q (idx + 2 * ((a, b) :: rest).length)
    rw [List.append_assoc]

lemma crossPairs_length (xs ys : List Nat) :
    (crossPairs xs ys).length = xs.length * ys.length := by
  unfold crossPairs
  induction xs with
  | nil => simp
  | cons x rest ih =>
    rw [List.flatMap_cons, List.length_append, List.length_map, ih,
      List.length_cons, Nat.succ_mul]
    omega

lemma upperTriPairs_length (xs : List Nat) :
    (upperTriPairs xs).length = xs.length * (xs.length - 1) / 2 := by
  induction xs with
  | nil => rfl
  | cons x rest ih =>
    show ((rest.map fun y => (x, y)) ++ upperTriPairs rest).length = _
    rw [List.length_append, List.length_map, ih, List.length_cons,
      ← Nat.choose_two_right, ← Nat.choose_two_right,
      Nat.choose_succ_succ, Nat.choose_one_right]

lemma pairSeq_length (G1 G2 G3 : List Nat) (mode : Nat) :
    (pairSeq G1 G2 G3 mode).length = pairCount G1 G2 G3 mode := by
  unfold pairSeq pairCount
  rw [List.length_append, List.length_append, List.length_append,
    List.length_append, crossPairs_length, crossPairs_length,
    crossPairs_length, apply_ite List.length, apply_ite List.length,
    upperTriPairs_length, upperTriPairs_length]
  simp

lemma ite_scan (c : Prop) [Decidable c] (body : List Nat)
    (ts : List (Nat × Nat)) (idx : Nat) (res : List Meas) :
    (if c then scanPairs body ts idx res else .ok (idx, res)) =
      scanPairs body (if c then ts else []) idx res := by
  by_cases hc : c
  · rw [if_pos hc, if_pos hc]
  · rw [if_neg hc, if_neg hc]
    rfl

lemma scanPairs_append (body : List Nat) (p : List (Nat × Nat)) :
    ∀ (q : List (Nat × Nat)) (idx : Nat) (res : List Meas),
      scanPairs body (p ++ q) idx res = (do
        let s ← scanPairs body p idx res
        scanPairs body q s.1 s.2) := by
  induction p with
  | nil =>
    intro q idx res
    rfl
  | cons x rest ih =>
    intro q idx res
    obtain ⟨a, b⟩ := x
    rw [List.cons_append]
    conv_lhs => rw [scanPairs.eq_def]
    conv_rhs => rw [scanPairs.eq_def]
    dsimp only
    cases hu : unpackHAt body idx with
    | error e => rfl
    | ok v =>
      show scanPairs body (rest ++ q) (idx + 2)
          (if twr_value_ok v then res ++ [(a, b, distQ v)] else res) = _
      rw [ih]
      rfl

lemma parse_loops_eq_scan (G1 G2 G3 body : List Nat) (mode : Nat) :
    parse_loops G1 G2 G3 body mode =
      scanPairs body (pairSeq G1 G2 G3 mode) 0 [] := by
  unfold parse_loops pairSeq
  simp only [ite_scan]
  conv_rhs =>
    rw [scanPairs_append, scanPairs_append, scanPairs_append,
      scanPairs_append]
  simp only [pybind_assoc, pybind_pure]

lemma parse_loops_ok (G1 G2 G3 body : List Nat) (mode : Nat)
    (h : 2 * pairCount G1 G2 G3 mode ≤ body.length) :
    parse_loops G1 G2 G3 body mode =
      .ok (2 * pairCount G1 G2 G3 mode,
           specScan body (pairSeq G1 G2 G3 mode) 0) := by
  rw [parse_loops_eq_scan,
    scanPairs_ok body (pairSeq G1 G2 G3 mode) 0 []
      (by rw [pairSeq_length]; omega),
    pairSeq_length, List.nil_append, Nat.zero_add]

lemma pyGet_triple0 {α : Type} (A B C : α) : pyGet [A, B, C] 0 = .ok A := by
  simp [pyGet]

lemma pyGet_triple1 {α : Type} (A B C : α) : pyGet [A, B, C] 1 = .ok B := by
  simp [pyGet]

lemma pyGet_triple2 {α : Type} (A B C : α) : pyGet [A, B, C] 2 = .ok C := by
  simp [pyGet]

lemma parse_final_ok (G1 G2 G3 body : List Nat) (mode : Nat)
    (hpos : 0 < body.length)
    (h : 2 * pairCount G1 G2 G3 mode ≤ body.length) :
    parse_final [G1, G2, G3] body mode =
      .ok (some (specScan body (pairSeq G1 G2 G3 mode) 0)) := by
  unfold parse_final
  rw [if_neg (by omega), pyGet_triple0, pybind_ok, pyGet_triple1, pybind_ok,
    pyGet_triple2, pybind_ok, parse_loops_ok G1 G2 G3 body mode h, pybind_ok]

/-- Claim C1: against assignment groups `G1, G2, G3` and mode, the
decode loops consume exactly `pairCount` 16-bit little-endian raw
values (the final read offset is `2 * pairCount` bytes) where
`pairCount = g1*g2 + g1*g3 + g2*g3`, plus `g1*(g1-1)/2` when mode bit 0
is set and `g2*(g2-1)/2` when mode bit 1 is set, and the measurements
appear exactly in the order groups 1 x 2, 1 x 3, 2 x 3, then the
group-1 triangle (mode bit 0) and the group-2 triangle (mode bit 1),
with the outer index varying slowest. -/
theorem C1_pairing_order (G1 G2 G3 body : List Nat) (mode : Nat)
    (hpos : 0 < body.length)
    (h : 2 * pairCount G1 G2 G3 mode ≤ body.length) :
    parse_loops G1 G2 G3 body mode =
      .ok (2 * pairCount G1 G2 G3 mode,
           specScan body (pairSeq G1 G2 G3 mode) 0) ∧
    parse_final [G1, G2, G3] body mode =
      .ok (some (specScan body (pairSeq G1 G2 G3 mode) 0)) :=
  ⟨parse_loops_ok G1 G2 G3 body mode h,
   parse_final_ok G1 G2 G3 body mode hpos h⟩

/-- Witness for C1: the concrete example of the specification, with
`group1 = [1, 2]`, `group2 = [3]`, `group3 = [4]`, `mode = 0`:
`pairCount = 5` and the pairs come out in the order
(1,3), (2,3), (1,4), (2,4), (3,4). -/
theorem C1_pairing_order_witness :
    0 < ([1, 0, 2, 0, 3, 0, 4, 0, 5, 0] : List Nat).length ∧
    2 * pairCount [1, 2] [3] [4] 0 ≤
      ([1, 0, 2, 0, 3, 0, 4, 0, 5, 0] : List Nat).length ∧
    pairCount [1, 2] [3] [4] 0 = 5 ∧
    parse_final [[1, 2], [3], [4]] [1, 0, 2, 0, 3, 0, 4, 0, 5, 0] 0 =
      .ok (some [(1, 3, distQ 1), (2, 3, distQ 2), (1, 4, distQ 3),
                 (2, 4, distQ 4), (3, 4, distQ 5)]) := by
  refine ⟨by decide, by decide, by decide, ?_⟩
  rw [(C1_pairing_order [1, 2] [3] [4] [1, 0, 2, 0, 3, 0, 4, 0, 5, 0] 0
    (by decide) (by decide)).2]
  simp [specScan, pairSeq, crossPairs, upperTriPairs, u16At, twr_value_ok_eq]

/-! ### Assignment packets replace the whole table -/

lemma encU16List_cons (v : Nat) (vs : List Nat) :
    encU16List (v :: vs) = v % 256 :: v / 256 :: encU16List vs := by
  simp [encU16List, encU16]

lemma encU16List_length (vs : List Nat) :
    (encU16List vs).length = 2 * vs.length := by
  induction vs with
  | nil => rfl
  | cons v tl ih =>
    rw [encU16List_cons]
    simp only [List.length_cons, ih]
    omega

lemma readU16List_enc (payload : List Nat) (G : List Nat) :
    ∀ (post : List Nat) (idx : Nat),
      payload.drop idx = encU16List G ++ post →
      readU16List payload idx G.length = .ok (G, idx + 2 * G.length) := by
  induction G with
  | nil =>
    intro post idx _
    simp [readU16List]
  | cons v vs ih =>
    intro post idx h
    have hd : payload.drop idx =
        v % 256 :: v / 256 :: (encU16List vs ++ post) := by
      rw [h, encU16List_cons]
      rfl
    have hu : unpackHAt payload idx = .ok v := by
      unfold unpackHAt
      rw [hd]
      show Except.ok (v % 256 + 256 * (v / 256)) = Except.ok v
      rw [Nat.mod_add_div]
    have hd2 : payload.drop (idx + 2) = encU16List vs ++ post := by
      rw [← List.drop_drop, hd]
      rfl
    have ha : idx + 2 * (vs.length + 1) = idx + 2 + 2 * vs.length := by omega
    rw [List.length_cons]
    conv_lhs => rw [readU16List.eq_def]
    dsimp only
    rw [hu, pybind_ok, ih post (idx + 2) hd2, pybind_ok, ha]

lemma readGroup3_enc (payload : List Nat) (G : List Nat) :
    ∀ (post : List Nat) (idx cnt : Nat),
      payload.drop idx = encU16List G ++ post →
      readGroup3 payload idx cnt G.length =
        .ok (G, cnt + G.count 0, idx + 2 * G.length) := by
  induction G with
  | nil =>
    intro post idx cnt _
    simp [readGroup3]
  | cons v vs ih =>
    intro post idx cnt h
    have hd : payload.drop idx =
        v % 256 :: v / 256 :: (encU16List vs ++ post) := by
      rw [h, encU16List_cons]
      rfl
    have hu : unpackHAt payload idx = .ok v := by
      unfold unpackHAt
      rw [hd]
      show Except.ok (v % 256 + 256 * (v / 256)) = Except.ok v
      rw [Nat.mod_add_div]
    have hd2 : payload.drop (idx + 2) = encU16List vs ++ post := by
      rw [← List.drop_drop, hd]
      rfl
    have ha : idx + 2 * (vs.length + 1) = idx + 2 + 2 * vs.length := by omega
    rw [List.length_cons]
    conv_lhs => rw [readGroup3.eq_def]
    dsimp only
    rw [hu, pybind_ok,
      ih post (idx + 2) (if v = 0 then cnt + 1 else cnt) hd2, pybind_ok, ha]
    dsimp only
    simp only [Except.ok.injEq, Prod.mk.injEq, and_true, true_and]
    by_cases hv : v = 0
    · subst hv
      rw [if_pos rfl, List.count_cons_self]
      omega
    · rw [if_neg hv, List.count_cons_of_ne (by omega)]

/-- Claim C5: an Assignment packet replaces the entire table with the
freshly parsed groups, records mode and the three group sizes from the
body, and sets unassigned_count to the number of zero entries among
the group-3 NodeIds; nothing of the previous state survives. -/
theorem C5_assignment_replaces (st : LoopState) (slot t0 t1 tx mode : Nat)
    (G1 G2 G3 : List Nat) :
    dispatch st (2 :: slot :: t0 :: t1 :: tx :: mode :: G1.length ::
        G2.length :: G3.length ::
        (encU16List G1 ++ (encU16List G2 ++ encU16List G3))) =
      .ok ({ assignments := [G1, G2, G3], mode := mode, g1 := G1.length,
             g2 := G2.length, g3 := G3.length,
             unassigned_count := G3.count 0 }, []) := by
  set payload := 2 :: slot :: t0 :: t1 :: tx :: mode :: G1.length ::
      G2.length :: G3.length ::
      (encU16List G1 ++ (encU16List G2 ++ encU16List G3)) with hpayload
  have hd9 : payload.drop 9 =
      encU16List G1 ++ (encU16List G2 ++ encU16List G3) := rfl
  have hd2 : payload.drop (9 + 2 * G1.length) =
      encU16List G2 ++ encU16List G3 := by
    rw [← List.drop_drop, hd9, ← encU16List_length, List.drop_left]
  have hd3 : payload.drop (9 + 2 * G1.length + 2 * G2.length) =
      encU16List G3 ++ [] := by
    rw [List.append_nil, ← List.drop_drop, hd2, ← encU16List_length,
      List.drop_left]
  unfold dispatch
  rw [if_neg (by simp [hpayload])]
  rw [if_pos (show payload.getD 0 0 = 2 from rfl)]
  unfold dispatchAssign
  rw [if_neg (by simp [hpayload])]
  rw [show payload.getD 5 0 = mode from rfl,
    show payload.getD 6 0 = G1.length from rfl,
    show payload.getD 7 0 = G2.length from rfl,
    show payload.getD 8 0 = G3.length from rfl]
  dsimp only
  rw [readU16List_enc payload G1 _ 9 hd9, pybind_ok]
  dsimp only
  rw [readU16List_enc payload G2 _ (9 + 2 * G1.length) hd2, pybind_ok]
  dsimp only
  rw [readGroup3_enc payload G3 _ (9 + 2 * G1.length + 2 * G2.length) 0 hd3,
    pybind_ok]
  dsimp only
  rw [Nat.zero_add]

/-! ### The TOF patch resolves the trailing group-3 placeholders -/

lemma pySet_natCast {α : Type} (xs : List α) (j : Nat) (v : α)
    (hj : j < xs.length) :
    pySet xs (j : Int) v = .ok (xs.set j v) := by
  unfold pySet
  rw [if_neg (show ¬((j : Int) < 0) from by omega)]
  rw [if_pos (show 0 ≤ (j : Int) ∧ (j : Int) < (xs.length : Int) from by
    constructor <;> omega)]
  rw [Int.toNat_natCast]

lemma patchLoop_ok (payload : List Nat) :
    ∀ (r ii : Nat) (G1 G2 P S : List Nat),
      r ≤ S.length → ii + 2 * r ≤ payload.length →
      patchLoop payload r ii (P.length : Int) [G1, G2, P ++ S] =
        .ok [G1, G2,
          P ++ ((List.range r).map (fun t => u16At payload (ii + 2 * t)) ++
            S.drop r)] := by
  intro r
  induction r with
  | zero =>
    intro ii G1 G2 P S _ _
    simp [patchLoop]
  | succ r ih =>
    intro ii G1 G2 P S hr hii
    cases S with
    | nil => simp at hr
    | cons s0 S2 =>
      have hv : unpackHAt payload ii = .ok (u16At payload ii) :=
        unpackHAt_ok payload ii (by omega)
      show (do
        let v ← unpackHAt payload ii
        let g3list ← pyGet [G1, G2, P ++ s0 :: S2] 2
        let g3set ← pySet g3list (P.length : Int) v
        patchLoop payload r (ii + 2) ((P.length : Int) + 1)
          ([G1, G2, P ++ s0 :: S2].set 2 g3set)) = _
      rw [hv, pybind_ok, pyGet_triple2, pybind_ok,
        pySet_natCast _ _ _ (by simp), pybind_ok]
      have hset : (P ++ s0 :: S2).set P.length (u16At payload ii) =
          P ++ u16At payload ii :: S2 := by
        rw [List.set_append_right _ _ (Nat.le_refl _)]
        simp
      rw [hset]
      show patchLoop payload r (ii + 2) ((P.length : Int) + 1)
          [G1, G2, P ++ u16At payload ii :: S2] = _
      have hidx : (P.length : Int) + 1 =
          ((P ++ [u16At payload ii]).length : Int) := by simp
      have hlist : P ++ u16At payload ii :: S2 =
          (P ++ [u16At payload ii]) ++ S2 := by simp
      rw [hidx, hlist,
        ih (ii + 2) G1 G2 (P ++ [u16At payload ii]) S2
          (by simp only [List.length_cons] at hr; omega) (by omega)]
      have hmap : (List.range (r + 1)).map
            (fun t => u16At payload (ii + 2 * t)) =
          u16At payload ii ::
            (List.range r).map (fun t => u16At payload (ii + 2 + 2 * t)) := by
        rw [List.range_succ_eq_map, List.map_cons, List.map_map]
        refine congrArg₂ _ (by simp) ?_
        apply List.map_congr_left
        intro t _
        show u16At payload (ii + 2 * (t + 1)) = u16At payload (ii + 2 + 2 * t)
        congr 1
        omega
      rw [hmap, List.drop_succ_cons]
      simp [List.append_assoc]

lemma patchLoop_closed (payload : List Nat) (r ii : Nat)
    (G1 G2 G3 : List Nat) (hr : r ≤ G3.length)
    (hii : ii + 2 * r ≤ payload.length) :
    patchLoop payload r ii ((G3.length - r : Nat) : Int) [G1, G2, G3] =
      .ok [G1, G2, G3.take (G3.length - r) ++
        (List.range r).map (fun t => u16At payload (ii + 2 * t))] := by
  have h := patchLoop_ok payload r ii G1 G2 (G3.take (G3.length - r))
    (G3.drop (G3.length - r)) (by rw [List.length_drop]; omega) hii
  rw [List.take_append_drop] at h
  rw [show ((G3.length - r : Nat) : Int) =
      ((G3.take (G3.length - r)).length : Int) from by
    rw [List.length_take]
    omega]
  rw [h, List.drop_drop, show G3.length - r + r = G3.length from by omega,
    List.drop_length, List.append_nil]

/-- Claim C3: a TOF packet against a table `[G1, G2, G3]` with recorded
sizes matching the group lengths and `u = unassigned_count <= g3` reads
the `u` little-endian NodeIds located immediately after the `pairCount`
raw values of the body and writes them, in order, into the trailing `u`
slots of group 3 (`group3[g3 - u + k] := resolved[k]`) before the
measurements are decoded (the emitted measurements use the patched
group 3); the lengths of all three groups are unchanged. -/
theorem C3_unassigned_patch (st : LoopState) (slot t0 t1 : Nat)
    (G1 G2 G3 body : List Nat)
    (hass : st.assignments = [G1, G2, G3])
    (hg1 : st.g1 = G1.length) (hg2 : st.g2 = G2.length)
    (hg3 : st.g3 = G3.length)
    (hu : st.unassigned_count ≤ G3.length)
    (hpos : 0 < body.length)
    (hlen : 2 * (pairCount G1 G2 G3 st.mode + st.unassigned_count) ≤
      body.length) :
    dispatch st (4 :: slot :: t0 :: t1 :: body) =
      .ok ({ st with assignments := [G1, G2,
              patchedG3 G3 body (pairCount G1 G2 G3 st.mode)
                st.unassigned_count] },
           specScan body
             (pairSeq G1 G2
               (patchedG3 G3 body (pairCount G1 G2 G3 st.mode)
                 st.unassigned_count) st.mode) 0) ∧
    (patchedG3 G3 body (pairCount G1 G2 G3 st.mode)
        st.unassigned_count).length = G3.length := by
  have hplen : (patchedG3 G3 body (pairCount G1 G2 G3 st.mode)
      st.unassigned_count).length = G3.length := by
    unfold patchedG3 resolvedIds
    rw [List.length_append, List.length_take, List.length_map,
      List.length_range]
    omega
  refine ⟨?_, hplen⟩
  have hneq2 : ¬(4 :: slot :: t0 :: t1 :: body).getD 0 0 = 2 := by simp
  have heq4 : (4 :: slot :: t0 :: t1 :: body).getD 0 0 = 4 := rfl
  unfold dispatch
  rw [if_neg (by simp), if_neg hneq2, if_pos heq4]
  unfold dispatchTof
  dsimp only
  rw [hass, hg1, hg2, hg3, ← pairCount.eq_def]
  have hidx : ((G3.length : Int) - (st.unassigned_count : Int)) =
      ((G3.length - st.unassigned_count : Nat) : Int) := by omega
  rw [hidx]
  have hplength : (4 :: slot :: t0 :: t1 :: body).length =
      4 + body.length := by simp; omega
  rw [patchLoop_closed (4 :: slot :: t0 :: t1 :: body) st.unassigned_count
    (4 + 2 * pairCount G1 G2 G3 st.mode) G1 G2 G3 hu
    (by rw [hplength]; omega)]
  rw [pybind_ok]
  have hvals : (List.range st.unassigned_count).map
      (fun t => u16At (4 :: slot :: t0 :: t1 :: body)
        (4 + 2 * pairCount G1 G2 G3 st.mode + 2 * t)) =
      resolvedIds body (pairCount G1 G2 G3 st.mode) st.unassigned_count := by
    unfold resolvedIds
    apply List.map_congr_left
    intro t _
    rw [show (4 : Nat) + 2 * pairCount G1 G2 G3 st.mode + 2 * t =
        ([4, slot, t0, t1] : List Nat).length +
          (2 * pairCount G1 G2 G3 st.mode + 2 * t) from by simp; omega]
    exact u16At_append [4, slot, t0, t1] body _
  rw [show (4 :: slot :: t0 :: t1 :: body).drop 4 = body from rfl]
  rw [show G3.take (G3.length - st.unassigned_count) ++
      (List.range st.unassigned_count).map
        (fun t => u16At (4 :: slot :: t0 :: t1 :: body)
          (4 + 2 * pairCount G1 G2 G3 st.mode + 2 * t)) =
      patchedG3 G3 body (pairCount G1 G2 G3 st.mode) st.unassigned_count
    from by rw [hvals]; rfl]
  have hpc : pairCount G1 G2 (patchedG3 G3 body
      (pairCount G1 G2 G3 st.mode) st.unassigned_count) st.mode =
      pairCount G1 G2 G3 st.mode := by
    unfold pairCount
    rw [hplen]
  rw [parse_final_ok G1 G2 _ body st.mode hpos (by rw [hpc]; omega)]
  rw [pybind_ok]

/-- Witness for C3 at a concrete input: table `[[1], [2], [0]]` with one
unassigned slot, a TOF body with three raw values followed by the
resolved NodeId 9; group 3 becomes `[9]`. -/
theorem C3_unassigned_patch_witness :
    (let st : LoopState :=
      { assignments := [[1], [2], [0]], mode := 0, g1 := 1, g2 := 1,
        g3 := 1, unassigned_count := 1 }
     st.assignments = [[1], [2], [0]] ∧ st.g1 = 1 ∧ st.g2 = 1 ∧
     st.g3 = 1 ∧ st.unassigned_count ≤ 1 ∧
     0 < ([1, 0, 2, 0, 3, 0, 9, 0] : List Nat).length ∧
     2 * (pairCount [1] [2] [0] st.mode + st.unassigned_count) ≤
       ([1, 0, 2, 0, 3, 0, 9, 0] : List Nat).length ∧
     dispatch st [4, 0, 0, 0, 1, 0, 2, 0, 3, 0, 9, 0] =
       .ok ({ st with assignments := [[1], [2],
               patchedG3 [0] [1, 0, 2, 0, 3, 0, 9, 0]
                 (pairCount [1] [2] [0] st.mode) 1] },
            specScan [1, 0, 2, 0, 3, 0, 9, 0]
              (pairSeq [1] [2]
                (patchedG3 [0] [1, 0, 2, 0, 3, 0, 9, 0]
                  (pairCount [1] [2] [0] st.mode) 1) st.mode) 0)) := by
  refine ⟨rfl, rfl, rfl, rfl, by decide, by decide, by decide, ?_⟩
  exact (C3_unassigned_patch _ 0 0 0 [1] [2] [0] [1, 0, 2, 0, 3, 0, 9, 0]
    rfl rfl rfl rfl (by decide) (by decide) (by decide)).1

/-! ### The patch indices stay in bounds in every reachable state -/

lemma pybind_ok_inv {α β : Type} {x : PyResult α} {f : α → PyResult β}
    {c : β} (h : (do let a ← x; f a) = .ok c) :
    ∃ a, x = .ok a ∧ f a = .ok c := by
  cases x with
  | error e => exact absurd h (by simp [Bind.bind, Except.bind])
  | ok a => exact ⟨a, rfl, h⟩

lemma readGroup3_spec (payload : List Nat) :
    ∀ (n idx cnt : Nat) (vs : List Nat) (c2 idx2 : Nat),
      readGroup3 payload idx cnt n = .ok (vs, c2, idx2) →
      vs.length = n ∧ c2 ≤ cnt + n := by
  intro n
  induction n with
  | zero =>
    intro idx cnt vs c2 idx2 h
    simp [readGroup3] at h
    simp [← h.1, ← h.2.1]
  | succ n ih =>
    intro idx cnt vs c2 idx2 h
    rw [show readGroup3 payload idx cnt (n + 1) = (do
        let v ← unpackHAt payload idx
        let s ← readGroup3 payload (idx + 2)
          (if v = 0 then cnt + 1 else cnt) n
        .ok (v :: s.1, s.2.1, s.2.2)) from rfl] at h
    obtain ⟨v, _, h2⟩ := pybind_ok_inv h
    obtain ⟨s, hs, h3⟩ := pybind_ok_inv h2
    obtain ⟨s1, sc, si⟩ := s
    have hrec := ih (idx + 2) (if v = 0 then cnt + 1 else cnt) s1 sc si hs
    simp only [Except.ok.injEq, Prod.mk.injEq] at h3
    obtain ⟨hv1, hv2, _⟩ := h3
    constructor
    · rw [← hv1, List.length_cons, hrec.1]
    · have hle : (if v = 0 then cnt + 1 else cnt) ≤ cnt + 1 := by
        by_cases hz : v = 0
        · rw [if_pos hz]
        · rw [if_neg hz]
          omega
      omega

lemma pySet_length {α : Type} {xs ys : List α} {i : Int} {v : α}
    (h : pySet xs i v = .ok ys) : ys.length = xs.length := by
  unfold pySet at h
  dsimp only at h
  by_cases h0 : i < 0
  · rw [if_pos h0] at h
    by_cases h1 : 0 ≤ i + (xs.length : Int) ∧
        i + (xs.length : Int) < (xs.length : Int)
    · rw [if_pos h1] at h
      simp only [Except.ok.injEq] at h
      rw [← h, List.length_set]
    · rw [if_neg h1] at h
      exact absurd h (by simp)
  · rw [if_neg h0] at h
    by_cases h1 : 0 ≤ i ∧ i < (xs.length : Int)
    · rw [if_pos h1] at h
      simp only [Except.ok.injEq] at h
      rw [← h, List.length_set]
    · rw [if_neg h1] at h
      exact absurd h (by simp)

lemma patchLoop_shape (payload : List Nat) :
    ∀ (r ii : Nat) (k : Int) (A B C : List Nat) (ass2 : List (List Nat)),
      patchLoop payload r ii k [A, B, C] = .ok ass2 →
      ∃ C2, ass2 = [A, B, C2] ∧ C2.length = C.length := by
  intro r
  induction r with
  | zero =>
    intro ii k A B C ass2 h
    simp [patchLoop] at h
    exact ⟨C, h.symm, rfl⟩
  | succ r ih =>
    intro ii k A B C ass2 h
    rw [show patchLoop payload (r + 1) ii k [A, B, C] = (do
        let v ← unpackHAt payload ii
        let g3list ← pyGet [A, B, C] 2
        let g3set ← pySet g3list k v
        patchLoop payload r (ii + 2) (k + 1)
          ([A, B, C].set 2 g3set)) from rfl] at h
    obtain ⟨v, _, h2⟩ := pybind_ok_inv h
    obtain ⟨g3list, hg, h3⟩ := pybind_ok_inv h2
    obtain ⟨g3set, hset, h4⟩ := pybind_ok_inv h3
    rw [pyGet_triple2] at hg
    simp only [Except.ok.injEq] at hg
    subst hg
    have hsl : g3set.length = C.length := pySet_length hset
    have h5 : patchLoop payload r (ii + 2) (k + 1) [A, B, g3set] =
        .ok ass2 := h4
    obtain ⟨C2, hC2, hlen⟩ := ih (ii + 2) (k + 1) A B g3set ass2 h5
    exact ⟨C2, hC2, by rw [hlen, hsl]⟩

lemma dispatchAssign_inv {p : List Nat} {st2 : LoopState} {ms : List Meas}
    (h : dispatchAssign p = .ok (st2, ms)) :
    st2.unassigned_count ≤ st2.g3 ∧
    ∃ V1 V2 V3, st2.assignments = [V1, V2, V3] ∧ V3.length = st2.g3 := by
  unfold dispatchAssign at h
  split at h
  · exact absurd h (by simp)
  · obtain ⟨r1, _, h2⟩ := pybind_ok_inv h
    obtain ⟨r2, _, h3⟩ := pybind_ok_inv h2
    obtain ⟨r3, hr3, h4⟩ := pybind_ok_inv h3
    obtain ⟨V3, c2, i3⟩ := r3
    have hspec := readGroup3_spec p (p.getD 8 0) r2.2 0 V3 c2 i3 hr3
    simp only [Except.ok.injEq, Prod.mk.injEq] at h4
    rw [← h4.1]
    refine ⟨by dsimp only; omega, r1.1, r2.1, V3, by dsimp only, ?_⟩
    dsimp only
    exact hspec.1

lemma dispatchTof_inv {st : LoopState} {p : List Nat} {st2 : LoopState}
    {ms : List Meas} (h : dispatchTof st p = .ok (st2, ms)) :
    ∃ ass2 ii, patchLoop p st.unassigned_count ii
        ((st.g3 : Int) - (st.unassigned_count : Int)) st.assignments =
          .ok ass2 ∧
      st2 = { st with assignments := ass2 } := by
  unfold dispatchTof at h
  dsimp only at h
  obtain ⟨ass2, hp, h2⟩ := pybind_ok_inv h
  obtain ⟨resOpt, _, h3⟩ := pybind_ok_inv h2
  cases resOpt with
  | none => exact absurd h3 (by simp)
  | some results =>
    simp only [Except.ok.injEq, Prod.mk.injEq] at h3
    exact ⟨ass2, _, hp, h3.1.symm⟩

/-- Claim C10: in every reachable state of the dispatch loop,
unassigned_count is at most g3, and whenever unassigned_count is
positive the assignment table is a triple whose group 3 has length g3,
so every index `g3 - unassigned_count + k` used by the TOF patch with
`k < unassigned_count` is within the bounds of group 3. -/
theorem C10_patch_in_bounds (st : LoopState) (h : ReachableState st) :
    st.unassigned_count ≤ st.g3 ∧
    (0 < st.unassigned_count →
      ∃ G1 G2 G3, st.assignments = [G1, G2, G3] ∧ G3.length = st.g3 ∧
        ∀ k, k < st.unassigned_count →
          st.g3 - st.unassigned_count + k < G3.length) := by
  induction h with
  | init => exact ⟨Nat.le_refl 0, fun hx => absurd hx (by simp [initState])⟩
  | @step st1 st2 p ms _ hdisp ih =>
    unfold dispatch at hdisp
    split at hdisp
    · exact absurd hdisp (by simp)
    · split at hdisp
      · obtain ⟨h1, V1, V2, V3, hass, hlen⟩ := dispatchAssign_inv hdisp
        refine ⟨h1, fun _ => ⟨V1, V2, V3, hass, hlen, fun k hk => ?_⟩⟩
        rw [hlen]
        omega
      · split at hdisp
        · obtain ⟨ass2, ii, hp, hst2⟩ := dispatchTof_inv hdisp
          subst hst2
          refine ⟨ih.1, fun hpos => ?_⟩
          obtain ⟨G1, G2, G3, hass, hlen, _⟩ := ih.2 hpos
          rw [hass] at hp
          obtain ⟨C2, hC2, hClen⟩ :=
            patchLoop_shape p st1.unassigned_count ii _ G1 G2 G3 ass2 hp
          refine ⟨G1, G2, C2, by dsimp only; rw [hC2], ?_, ?_⟩
          · dsimp only
            rw [hClen, hlen]
          · intro k hk
            dsimp only at hk ⊢
            rw [hClen, hlen]
            have := ih.1
            omega
        · simp only [Except.ok.injEq, Prod.mk.injEq] at hdisp
          rw [← hdisp.1]
          exact ih

/-- Witness for C10: the initial state is reachable and satisfies the
invariant. -/
theorem C10_patch_in_bounds_witness :
    initState.unassigned_count ≤ initState.g3 ∧
    (0 < initState.unassigned_count →
      ∃ G1 G2 G3, initState.assignments = [G1, G2, G3] ∧
        G3.length = initState.g3 ∧
        ∀ k, k < initState.unassigned_count →
          initState.g3 - initState.unassigned_count + k < G3.length) :=
  C10_patch_in_bounds initState ReachableState.init

/-! ### Frame reassembly: resynchronization and the buffer bound -/

lemma frun_none {st : FSt} (h : fstep st = none) : frun st = st.out := by
  rw [frun.eq_def]
  split
  · rfl
  · rename_i st2 heq
    rw [heq] at h
    cases h

lemma frun_step {st st2 : FSt} (h : fstep st = some st2) :
    frun st = frun st2 := by
  rw [frun.eq_def]
  split
  · rename_i heq
    rw [heq] at h
    cases h
  · rename_i st3 heq
    rw [heq] at h
    cases h
    rfl

lemma fstep_four (b0 b1 b2 b3 : Nat) (input : List Nat)
    (out : List (List Nat)) :
    fstep ⟨[b0, b1, b2, b3], input, out⟩ =
      if b0 = 0xDC ∧ b1 = 0xAC then
        if b2 + 256 * b3 ≤ input.length then
          some ⟨[], input.drop (b2 + 256 * b3),
            out ++ [input.take (b2 + 256 * b3)]⟩
        else none
      else some ⟨[b1, b2, b3], input, out⟩ := rfl

lemma frun_feed {s input : List Nat} {b : Nat} {out : List (List Nat)}
    (hlt : s.length < 4) :
    frun ⟨s, b :: input, out⟩ = frun ⟨s ++ [b], input, out⟩ := by
  apply frun_step
  unfold fstep
  dsimp only
  rw [if_neg (show ¬4 ≤ s.length from by omega)]

lemma frun_drop {g : Nat} {rest : List Nat} {out : List (List Nat)}
    (hr : 3 ≤ rest.length) (hng : ¬(g = 0xDC ∧ rest.getD 0 0 = 0xAC)) :
    frun ⟨[], g :: rest, out⟩ = frun ⟨[], rest, out⟩ := by
  rcases rest with _ | ⟨a, rest⟩
  · simp at hr
  rcases rest with _ | ⟨b, rest⟩
  · simp at hr
  rcases rest with _ | ⟨c, tl⟩
  · simp at hr
  have hfa : ¬(g = 0xDC ∧ a = 0xAC) := by
    simpa using hng
  have hstep : fstep ⟨[g, a, b, c], tl, out⟩ = some ⟨[a, b, c], tl, out⟩ := by
    rw [fstep_four, if_neg hfa]
  have hL : frun ⟨[], g :: a :: b :: c :: tl, out⟩ =
      frun ⟨[a, b, c], tl, out⟩ := by
    rw [frun_feed (by simp), frun_feed (by simp), frun_feed (by simp),
      frun_feed (by simp),
      show (((([] : List Nat) ++ [g]) ++ [a]) ++ [b]) ++ [c] = [g, a, b, c]
        from by simp]
    exact frun_step hstep
  have hR : frun ⟨[], a :: b :: c :: tl, out⟩ =
      frun ⟨[a, b, c], tl, out⟩ := by
    rw [frun_feed (by simp), frun_feed (by simp), frun_feed (by simp),
      show ((([] : List Nat) ++ [a]) ++ [b]) ++ [c] = [a, b, c]
        from by simp]
  exact hL.trans hR.symm

lemma frun_consume (payload : List Nat) (out : List (List Nat)) :
    frun ⟨[], mkFrame payload, out⟩ = out ++ [payload] := by
  unfold mkFrame
  rw [frun_feed (by simp), frun_feed (by simp), frun_feed (by simp),
    frun_feed (by simp),
    show (((([] : List Nat) ++ [0xDC]) ++ [0xAC]) ++
        [payload.length % 256]) ++ [payload.length / 256] =
      [0xDC, 0xAC, payload.length % 256, payload.length / 256]
      from by simp]
  have hstep : fstep ⟨[0xDC, 0xAC, payload.length % 256,
      payload.length / 256], payload, out⟩ = some ⟨[], [], out ++ [payload]⟩ := by
    rw [fstep_four, if_pos ⟨rfl, rfl⟩,
      show payload.length % 256 + 256 * (payload.length / 256) =
        payload.length from Nat.mod_add_div payload.length 256,
      if_pos (Nat.le_refl payload.length), List.drop_length,
      List.take_length]
  rw [frun_step hstep,
    frun_none (show fstep ⟨[], [], out ++ [payload]⟩ = none from rfl)]

lemma frun_resync (garbage payload : List Nat) (out : List (List Nat))
    (h : noMagicPair garbage) :
    frun ⟨[], garbage ++ mkFrame payload, out⟩ = out ++ [payload] := by
  induction garbage with
  | nil => simpa using frun_consume payload out
  | cons g gs ih =>
    have hr : 3 ≤ (gs ++ mkFrame payload).length := by
      simp only [List.length_append, mkFrame, List.length_cons]
      omega
    have hng : ¬(g = 0xDC ∧ (gs ++ mkFrame payload).getD 0 0 = 0xAC) := by
      cases gs with
      | nil =>
        intro hc
        simpa [mkFrame] using hc.2
      | cons g2 gs2 => simpa using h.1
    have h2 : noMagicPair gs := by
      cases gs with
      | nil => trivial
      | cons g2 gs2 => exact h.2
    rw [List.cons_append, frun_drop hr hng]
    exact ih h2

/-- Claim C6: for every list of garbage bytes (bytes containing no
adjacent magic pair DC AC) followed by one well-formed frame, the frame
loop emits exactly one payload, equal to the frame payload bytes;
garbage is recovered from by discarding one leading byte per step and
no error is ever surfaced. -/
theorem C6_resynchronization (garbage payload : List Nat)
    (h : noMagicPair garbage) :
    frun ⟨[], garbage ++ mkFrame payload, []⟩ = [payload] := by
  simpa using frun_resync garbage payload [] h

/-- Witness for C6: two garbage bytes (the second is a lone 0xDC)
followed by a frame with a two-byte payload. -/
theorem C6_resynchronization_witness :
    noMagicPair [1, 0xDC] ∧
    frun ⟨[], [1, 0xDC] ++ mkFrame [7, 8], []⟩ = [[7, 8]] :=
  ⟨⟨by decide, trivial⟩,
   C6_resynchronization [1, 0xDC] [7, 8] ⟨by decide, trivial⟩⟩

lemma fstep_buflen {st st2 : FSt} (h : fstep st = some st2)
    (hb : st.s.length ≤ 4) : st2.s.length ≤ 4 := by
  unfold fstep at h
  by_cases h4 : 4 ≤ st.s.length
  · rw [if_pos h4] at h
    by_cases hm : st.s.getD 0 0 = 0xDC ∧ st.s.getD 1 0 = 0xAC
    · rw [if_pos hm] at h
      by_cases hl : st.s.getD 2 0 + 256 * st.s.getD 3 0 ≤ st.input.length
      · rw [if_pos hl] at h
        cases h
        simp
      · rw [if_neg hl] at h
        cases h
    · rw [if_neg hm] at h
      cases h
      simp only [List.length_drop]
      omega
  · rw [if_neg h4] at h
    cases hin : st.input with
    | nil =>
      rw [hin] at h
      cases h
    | cons b rest =>
      rw [hin] at h
      cases h
      simp only [List.length_append, List.length_cons, List.length_nil]
      omega

/-- Claim C9: in every state of the frame loop reachable from an empty
buffer, the accumulation buffer holds at most 4 bytes; consequently
whenever a frame is consumed (which requires at least 4 buffered
bytes) the buffer holds exactly the 4 header bytes, all of which are
consumed, so clearing it discards no unprocessed data. -/
theorem C9_buffer_bounded (input : List Nat) (st : FSt)
    (h : FReach ⟨[], input, []⟩ st) :
    st.s.length ≤ 4 ∧ (4 ≤ st.s.length → st.s.length = 4) := by
  have hb : st.s.length ≤ 4 := by
    induction h with
    | refl => simp
    | tail _ hstep ih => exact fstep_buflen hstep ih
  exact ⟨hb, fun h4 => by omega⟩

/-- Witness for C9 at the (reachable) initial state. -/
theorem C9_buffer_bounded_witness :
    FReach ⟨[], [1, 2, 3], []⟩ ⟨[], [1, 2, 3], []⟩ ∧
    (FSt.mk [] [1, 2, 3] []).s.length ≤ 4 ∧
    (4 ≤ (FSt.mk [] [1, 2, 3] []).s.length →
      (FSt.mk [] [1, 2, 3] []).s.length = 4) :=
  ⟨FReach.refl _,
   C9_buffer_bounded [1, 2, 3] ⟨[], [1, 2, 3], []⟩ (FReach.refl _)⟩

/-- Claim C8: a complete payload whose type byte is neither 2 nor 4 is
dispatched as a no-op: state unchanged, no measurements, no error. -/
theorem C8_unknown_type_noop (st : LoopState) (payload : List Nat)
    (h4 : 4 ≤ payload.length) (h2 : payload.getD 0 0 ≠ 2)
    (ht : payload.getD 0 0 ≠ 4) :
    dispatch st payload = .ok (st, []) := by
  unfold dispatch
  rw [if_neg (by omega), if_neg h2, if_neg ht]

/-- Witness for C8 at a concrete input. -/
theorem C8_unknown_type_noop_witness :
    4 ≤ ([7, 0, 0, 0] : List Nat).length ∧
    ([7, 0, 0, 0] : List Nat).getD 0 0 ≠ 2 ∧
    ([7, 0, 0, 0] : List Nat).getD 0 0 ≠ 4 ∧
    dispatch initState [7, 0, 0, 0] = .ok (initState, []) :=
  ⟨by decide, by decide, by decide,
    C8_unknown_type_noop initState [7, 0, 0, 0] (by decide) (by decide)
      (by decide)⟩

/-- Claim C4 is violated by the code: dispatching a TOF payload before
any Assignment packet raises an exception instead of producing zero
measurements.  With an empty body, parse_final returns None and the
caller evaluates len(None) (TypeError); with a nonempty body,
parse_final evaluates len(assignments[0]) on the empty assignment list
(IndexError). -/
theorem C4_tof_before_assignment_raises :
    dispatch initState [4, 0, 0, 0] = .error () ∧
    dispatch initState [4, 0, 0, 0, 1, 0] = .error () :=
  ⟨by decide, by decide⟩

/-- Claim C7 is violated by the code on the empty-body case: a TOF
payload of exactly 4 bytes against a populated table makes parse_final
return None (bare return), and the caller evaluates len(None), raising
TypeError.  The nonempty-body all-invalid case does hold: three zero
raw values produce an empty measurement list with no error. -/
theorem C7_empty_body_raises :
    dispatch ⟨[[1], [2], [3]], 0, 1, 1, 1, 0⟩ [4, 0, 0, 0] = .error () ∧
    dispatch ⟨[[1], [2], [3]], 0, 1, 1, 1, 0⟩ [4, 0, 0, 0, 0, 0, 0, 0, 0, 0] =
      .ok (⟨[[1], [2], [3]], 0, 1, 1, 1, 0⟩, []) :=
  ⟨by decide, by decide⟩

end UWB
